import Mathlib

/-!
Verification development for the IM flask backend's RAG service
(`flask_backend/app/services/rag_service.py`) and audio service
(`flask_backend/app/services/audio_service.py`).

Conventions of the shallow embedding:
* Python strings are Lean `String`s, except where character-index
  surgery matters (`extract_key_info`, keyword matching), where they
  are `List Char`.
* Python float arithmetic on RRF scores and similarity scores is
  modelled exactly over `ℚ`.
* External effects (model completions, embeddings, vector-store
  upserts/queries) are passed in as explicit outcomes: a fallible call
  is an `Except` value, and vector-store traffic is recorded as data
  (`QueryEvent`, upserted `Record`s) so that the code's filter and
  query construction can be examined.
-/

namespace IM

/-- A vector-store match as consumed by `_reciprocal_rank_fusion`:
a Pinecone match dict with its `id` and the metadata `text` field
that `retrieve_context` reads back out. -/
structure PMatch where
  id : String
  text : String
deriving DecidableEq, Repr

/-- One step of the Python `scores` dict accumulation:
`scores[doc_id] = scores.get(doc_id, 0) + v`.  The dict is modelled as
an association list in key-insertion order (Python dicts preserve
insertion order, and updating an existing key keeps its position). -/
def addScore (acc : List (String × ℚ)) (i : String) (v : ℚ) : List (String × ℚ) :=
  if acc.any (fun p => p.1 == i) then
    acc.map (fun p => (p.1, if p.1 == i then p.2 + v else p.2))
  else acc ++ [(i, v)]

/-- Association-list lookup, modelling Python dict lookup
(keys are unique in all dicts we build). -/
def alookup {α : Type} (i : String) : List (String × α) → Option α
  | [] => none
  | p :: rest => if p.1 == i then some p.2 else alookup i rest

/-- The inner loop of `_reciprocal_rank_fusion`:
`for rank, match in enumerate(result_list): scores[m['id']] += 1.0/(k+rank)`,
with the running `rank` made explicit. -/
def scoreList (k : ℕ) : List (String × ℚ) → ℕ → List PMatch → List (String × ℚ)
  | acc, _, [] => acc
  | acc, rank, m :: rest =>
      scoreList k (addScore acc m.id (1 / ((k : ℚ) + rank))) (rank + 1) rest

/-- The full `scores` dict built by `_reciprocal_rank_fusion`'s outer loop
over `results_lists`. -/
def rrfScores (results_lists : List (List PMatch)) (k : ℕ) : List (String × ℚ) :=
  results_lists.foldl (fun acc l => scoreList k acc 0 l) []

/-- Descending-by-accumulated-score comparison used by
`sorted(scores, key=scores.get, reverse=True)`. -/
def scoreGe (a b : String × ℚ) : Prop := b.2 ≤ a.2

instance : DecidableRel scoreGe := fun a b => inferInstanceAs (Decidable (b.2 ≤ a.2))

instance : IsTotal (String × ℚ) scoreGe := ⟨fun a b => le_total b.2 a.2⟩

instance : IsTrans (String × ℚ) scoreGe := ⟨fun _ _ _ h h2 => le_trans h2 h⟩

/-- `id_to_match = {m['id']: m for l in results_lists for m in l}` —
a dict comprehension, so for a duplicated id the last occurrence wins. -/
def idToMatch (results_lists : List (List PMatch)) (i : String) : Option PMatch :=
  (results_lists.flatten.filter (fun m => m.id == i)).getLast?

/-- Shallow embedding of `RAGService._reciprocal_rank_fusion`.
`sorted(scores, key=scores.get, reverse=True)` is a stable descending
sort of the insertion-ordered `scores` keys by their accumulated score;
`List.insertionSort scoreGe` computes exactly that stable order. -/
def reciprocal_rank_fusion (results_lists : List (List PMatch)) (k : ℕ) : List PMatch :=
  let scores := rrfScores results_lists k
  let sorted_ids := (List.insertionSort scoreGe scores).map Prod.fst
  let fused := sorted_ids.filterMap (idToMatch results_lists)
  fused.take k

/-- `1/(k+rank)` when `i` occurs in the list (rank = 0-based position of
the first occurrence, counting from the given start rank), else `none`. -/
def listContrib (k : ℕ) (i : String) : ℕ → List PMatch → Option ℚ
  | _, [] => none
  | rank, m :: rest =>
      if m.id == i then some (1 / ((k : ℚ) + rank)) else listContrib k i (rank + 1) rest

/-- Total contribution of one list to id `i`, summed over all occurrences. -/
def listContribAll (k : ℕ) (i : String) : ℕ → List PMatch → ℚ
  | _, [] => 0
  | rank, m :: rest =>
      (if m.id == i then 1 / ((k : ℚ) + rank) else 0) + listContribAll k i (rank + 1) rest

/-- The specified RRF score of id `i`: `1/(k+rank)` summed over every
list in which `i` appears, `rank` its 0-based position in that list. -/
def rrfSpecScore (results_lists : List (List PMatch)) (k : ℕ) (i : String) : ℚ :=
  (results_lists.filterMap (listContrib k i 0)).sum

/-! ### String utilities shared by the embeddings

Python string primitives (`find`, `in`, `strip`, slicing) modelled on
`List Char`. -/

/-- `pat` occurs at the very start of `s`. -/
def leadsList : List Char → List Char → Bool
  | [], _ => true
  | _ :: _, [] => false
  | a :: ps, b :: bs => a == b && leadsList ps bs

/-- Python `str.find`: index of the first occurrence of `pat` in `s`
(`none` standing for Python's `-1`). -/
def strFind (pat : List Char) : List Char → Option ℕ
  | [] => if leadsList pat [] then some 0 else none
  | b :: t => if leadsList pat (b :: t) then some 0 else (strFind pat t).map (· + 1)

/-- Python `str.find(pat, start)`: first occurrence at or after `start`,
as an absolute index. -/
def strFindFrom (pat s : List Char) (start : ℕ) : Option ℕ :=
  (strFind pat (s.drop start)).map (· + start)

/-- Python `pat in s` for strings. -/
def containsSub (pat s : List Char) : Bool :=
  (strFind pat s).isSome

/-- The whitespace characters stripped by Python `str.strip()`
(ASCII range; 11 and 12 are vertical tab and form feed). -/
def wsChars : List Char := [' ', '\t', '\n', '\r', Char.ofNat 11, Char.ofNat 12]

/-- Python `str.strip(cs)`: remove characters of `cs` from both ends. -/
def pyStripChars (cs : List Char) (s : List Char) : List Char :=
  ((s.dropWhile (cs.contains ·)).reverse.dropWhile (cs.contains ·)).reverse

/-- Python `str.strip()` (no argument: whitespace). -/
def pyStripWs (s : List Char) : List Char := pyStripChars wsChars s

/-- Python `str.strip()` on Lean `String`s. -/
def pyStripStr (s : String) : String := (pyStripWs s.toList).asString

/-- Python `str.strip("- ")` on Lean `String`s. -/
def pyStripDashStr (s : String) : String := (pyStripChars ['-', ' '] s.toList).asString

/-- Python `str.split("\n")` on character lists: split at every newline,
keeping empty pieces (`"".split("\n") == [""]`). -/
def splitNl : List Char → List (List Char)
  | [] => [[]]
  | a :: rest =>
      let r := splitNl rest
      if a == '\n' then [] :: r
      else
        match r with
        | [] => [[a]]
        | h :: t => (a :: h) :: t

/-- Python `str.split("\n")` on Lean `String`s. -/
def pySplitNlStr (s : String) : List String :=
  (splitNl s.toList).map List.asString

/-! ### `_generate_multiqueries` (C6) -/

/-- Shallow embedding of `RAGService._generate_multiqueries`.  The model
call is passed in as its outcome `modelOut`; the `try`-less body means a
model failure propagates unchanged as the `Except.error` case. -/
def generate_multiqueries (query : String) (n : ℕ) (modelOut : Except String String) :
    Except String (List String) :=
  match modelOut with
  | .error e => .error e
  | .ok content =>
      let lines := pySplitNlStr (pyStripStr content)
      let queries := query :: (lines.filter (fun l => pyStripStr l != "")).map pyStripDashStr
      .ok (queries.take n)

/-- The paraphrase list `_generate_multiqueries` derives from the raw
model completion: nonblank lines, each stripped of leading/trailing
`-` and spaces. -/
def modelParaphrases (content : String) : List String :=
  ((pySplitNlStr (pyStripStr content)).filter (fun l => pyStripStr l != "")).map pyStripDashStr

/-! ### `rephrase_query_with_context` (C4) -/

/-- A conversation turn as handled by the service (a Python dict with
`role` and `content` keys). -/
structure Msg where
  role : String
  content : String
deriving DecidableEq, Repr

/-- One line of the rephrasing context: user/assistant turns are
rendered, any other role is skipped. -/
def historyLine (m : Msg) : Option String :=
  if m.role == "user" then some ("User: " ++ m.content)
  else if m.role == "assistant" then some ("Assistant: " ++ m.content)
  else none

/-- Python `l[-n:]`. -/
def lastN {α : Type} (n : ℕ) (l : List α) : List α := l.drop (l.length - n)

/-- The rewrite prompt built by `rephrase_query_with_context`
(triple-quoted f-string, 8-space indented continuation lines). -/
def rephrasePrompt (query : String) (conversation_history : List Msg) : String :=
  let context_parts := (lastN 4 conversation_history).filterMap historyLine
  let conversation_context := String.intercalate "\n" context_parts
  "Rewrite the question for search while keeping its meaning and key terms intact.\n" ++
  "        If the conversation history is empty, DO NOT change the query.\n" ++
  "        Use conversation history only if necessary, and avoid extending the query with your own knowledge.\n" ++
  "        If no changes are needed, output the current question as is.\n\n" ++
  "        Conversation history:\n        " ++ conversation_context ++ "\n\n" ++
  "        User Query: " ++ query ++ "\n        Rewritten Query:"

/-- Shallow embedding of `RAGService.rephrase_query_with_context`.
The model call is an oracle from the prompt to an outcome; the second
component records whether the model was invoked at all. -/
def rephrase_query_with_context (oracle : String → Except String String)
    (query : String) (conversation_history : List Msg) : String × Bool :=
  if conversation_history.isEmpty then (query, false)
  else
    match oracle (rephrasePrompt query conversation_history) with
    | .ok r => (pyStripStr r, true)
    | .error _ => (query, true)

/-! ### Vector-store records, filters and query events (C2, C5, C9) -/

/-- A stored vector-store record (id and metadata; the embedding vector
itself plays no role in the claims). -/
structure Record where
  id : String
  metadata : List (String × String)
deriving DecidableEq, Repr

/-- A vector-store query as issued by the service: the text that gets
embedded, the `top_k`, and the metadata filter. -/
structure QueryEvent where
  queryText : String
  topK : ℕ
  filter : List (String × String)
deriving DecidableEq, Repr

/-- Metadata-equality filter semantics of the external vector store:
a record passes iff its metadata maps every filter key to the filter's
value.  (Contract of the external service, not repository code.) -/
def matchesFilter (md : List (String × String)) (filt : List (String × String)) : Bool :=
  filt.all (fun kv => alookup kv.1 md == some kv.2)

/-- Contract of the external vector store's `query`: at most `top_k`
stored records, all satisfying the metadata filter. -/
def pineconeQuery (store : List Record) (filt : List (String × String)) (top_k : ℕ) :
    List Record :=
  (store.filter (fun r => matchesFilter r.metadata filt)).take top_k

/-- The argument `add_extracted_info_to_vector_db` receives: either the
new single-sentence dict `{'extracted_info': ...}` or anything else
(the legacy fallback, which the code stringifies). -/
inductive ExtractedPayload where
  | newFmt (extracted_info : String)
  | legacy (stringified : String)
deriving DecidableEq, Repr

/-- The `info_text` both branches of `add_extracted_info_to_vector_db`
derive from the payload. -/
def infoText : ExtractedPayload → String
  | .newFmt s => s
  | .legacy s => s

/-- The metadata dict built by `add_extracted_info_to_vector_db`
(both the new-format and the legacy branch build these same five keys). -/
def extractedMetadata (user_id : String) (p : ExtractedPayload) (timestamp : String) :
    List (String × String) :=
  [("extracted_info", infoText p), ("text", infoText p), ("type", "extracted_info"),
   ("user_id", user_id), ("timestamp", timestamp)]

/-- Outcome of the fact-persist operation: the returned boolean and the
records actually upserted. -/
structure PersistResult where
  ok : Bool
  upserts : List Record
deriving DecidableEq, Repr

/-- Shallow embedding of `RAGService.add_extracted_info_to_vector_db`.
The embedding call and the upsert are passed in as their outcomes; the
`try/except` body returns `False` on either failure and never raises. -/
def add_extracted_info_to_vector_db (user_id : String) (extracted_info : ExtractedPayload)
    (timestamp : String) (embedOutcome : Except String (List ℚ))
    (upsertOutcome : Except String Unit) : PersistResult :=
  let metadata := extractedMetadata user_id extracted_info timestamp
  match embedOutcome with
  | .error _ => { ok := false, upserts := [] }
  | .ok _ =>
      match upsertOutcome with
      | .error _ => { ok := false, upserts := [] }
      | .ok _ =>
          { ok := true,
            upserts := [{ id := user_id ++ "_" ++ timestamp ++ "_extracted",
                          metadata := metadata }] }

/-- The query issued by `retrieve_extracted_info`: it embeds the fixed
text `f"user {user_id} extracted info"` (not any caller-supplied
message) and filters by this user's extracted-info records. -/
def retrieve_extracted_info_query (user_id : String) (top_k : ℕ) : QueryEvent :=
  { queryText := "user " ++ user_id ++ " extracted info"
    topK := top_k
    filter := [("user_id", user_id), ("type", "extracted_info")] }

/-- The vector-store query behind `_build_relevant_context`: the
`current_message` parameter is accepted but never used — the body calls
`retrieve_extracted_info(user_id, top_k=5)`. -/
def build_relevant_context_query (user_id : String) (current_message : String) : QueryEvent :=
  retrieve_extracted_info_query user_id 5

/-- The vector-store query issued by `_retrieve_semantic_context`:
embeds `current_message`, `top_k=3`, same user/type filter. -/
def retrieve_semantic_context_query (user_id : String) (current_message : String) : QueryEvent :=
  { queryText := current_message
    topK := 3
    filter := [("user_id", user_id), ("type", "extracted_info")] }

/-- A query result match as post-processed by
`_retrieve_semantic_context` (score compared against 0.7). -/
structure ScoredMatch where
  id : String
  score : ℚ
  metadata : List (String × String)
deriving DecidableEq, Repr

/-- The `semantic_parts` loop of `_retrieve_semantic_context`: keep only
matches with score strictly above 0.7, then read their
`extracted_info` metadata. -/
def semantic_parts (ms : List ScoredMatch) : List String :=
  (ms.filter (fun m => decide ((7 : ℚ)/10 < m.score))).filterMap
    (fun m => alookup "extracted_info" m.metadata)

/-- Python `dict.update`: existing keys are overwritten in place, new
keys appended in the update's order. -/
def dictUpdate (base extra : List (String × String)) : List (String × String) :=
  (base.map (fun p =>
    match alookup p.1 extra with
    | some v => (p.1, v)
    | none => p)) ++ extra.filter (fun q => !(base.any (fun p => p.1 == q.1)))

/-- The Pinecone filter built by `retrieve_context`:
`{"user_id": user_id}` updated with the optional caller filters. -/
def retrieve_context_filter (user_id : String) (filters : Option (List (String × String))) :
    List (String × String) :=
  match filters with
  | none => [("user_id", user_id)]
  | some extra => dictUpdate [("user_id", user_id)] extra

/-! ### `rag_pipeline` step structure (C5, C9, C10) -/

/-- The two vector-store queries `rag_pipeline` issues in its retrieval
steps (source order: `_build_relevant_context` with the rephrased
query, then `_retrieve_semantic_context` with the rephrased query). -/
def rag_pipeline_retrieval_queries (user_id rephrased_query : String) : List QueryEvent :=
  [build_relevant_context_query user_id rephrased_query,
   retrieve_semantic_context_query user_id rephrased_query]

/-- The pipeline's continuation after the persist step: the return
value of `add_extracted_info_to_vector_db` is discarded by
`rag_pipeline`, so the subsequent retrieval queries take the persist
outcome as an (unused) argument. -/
def rag_pipeline_after_persist (user_id rephrased_query : String)
    (persistOutcome : PersistResult) : List QueryEvent :=
  rag_pipeline_retrieval_queries user_id rephrased_query

/-- Python truthiness of the optional `content` argument. -/
def pyTruthy : Option String → Bool
  | none => false
  | some s => s != ""

/-- The `voice_profile_name` component computed by `rag_pipeline`
(initialized to `None`; set only on the audio branch — where it is
whatever the audio processing produced, possibly `None` — or on the
text branch, where `classify_voice_profile_from_text` always returns a
name). -/
def rag_pipeline_voice_profile (input_type : String) (content : Option String)
    (audioOutcome : Option String) (textOutcome : String) : Option String :=
  if input_type == "audio" && pyTruthy content then audioOutcome
  else if input_type == "text" then some textOutcome
  else none

/-! ### `extract_key_info` (C7) -/

/-- The literal `"[Emotional context:"` (19 characters). -/
def emoMarker : List Char := "[Emotional context:".toList

/-- Everything `extract_key_info` assembles before the model call. -/
structure ExtractPromptParts where
  mainText : List Char
  emotional_context : List Char
  context_prompt : List Char
  emotion_prompt : List Char
  prompt : List Char
  temperature : ℚ
deriving DecidableEq, Repr

/-- Shallow embedding of the prompt-building part of
`RAGService.extract_key_info`: annotation surgery on the text, the two
optional prompt suffixes, the final prompt, and the temperature the
completion model is invoked with. -/
def extract_key_info_build (text : List Char) (conversation_context : List Char) :
    ExtractPromptParts :=
  let context_prompt :=
    if conversation_context.isEmpty then []
    else "\n\nConversation Context: ".toList ++ conversation_context
  let cut :=
    match strFind emoMarker text with
    | none => (text, ([] : List Char))
    | some s =>
        match strFindFrom [']'] text s with
        | none => (text, [])
        | some e =>
            (pyStripWs (text.take s) ++ pyStripWs (text.drop (e + 1)),
             pyStripWs ((text.drop (s + 19)).take (e - (s + 19))))
  let text1 := cut.1
  let emotional_context := cut.2
  let emotion_prompt :=
    if emotional_context.isEmpty then []
    else "\n\nEmotional Context: ".toList ++ emotional_context
  let prompt :=
    "Extract key information from the user message and summarize it in ONE natural sentence. ".toList ++
    "Include: who (people mentioned), what (main event/action), when (time references), ".toList ++
    "where (locations), why (purpose/intent), and emotional state. ".toList ++
    "Make it conversational and natural, like you".toList ++ [Char.ofNat 39] ++
    "re describing what the user said to someone else.".toList ++
    context_prompt ++ emotion_prompt ++
    "\n\nUser message: ".toList ++ text1 ++
    "\n\nExtracted information (one sentence):".toList
  { mainText := text1
    emotional_context := emotional_context
    context_prompt := context_prompt
    emotion_prompt := emotion_prompt
    prompt := prompt
    temperature := 0 }

/-! ### `AudioService._classify_voice_profile` (C8) -/

def gentle_words : List (List Char) :=
  ["soft".toList, "gentle".toList, "caring".toList, "tender".toList]

def charming_words : List (List Char) :=
  ["joy".toList, "playful".toList, "friendly".toList, "charming".toList, "sweet".toList]

def authoritative_words : List (List Char) :=
  ["authoritative".toList, "deep".toList, "powerful".toList, "boss".toList,
   "commanding".toList]

def gentleId : List Char := "7426720361733046281".toList
def charmingId : List Char := "7426720361733013513".toList
def ceoId : List Char := "7426720361733210121".toList
def youthId : List Char := "7468518846874271795".toList

/-- Python `emotion_analysis.lower()`. -/
def lowerList (s : List Char) : List Char := s.map Char.toLower

/-- Shallow embedding of `AudioService._classify_voice_profile`:
keyword families checked in fixed priority order over the lowercased
input, defaulting to the Righteous Youth id. -/
def classify_voice_profile (emotion_analysis : List Char) : List Char :=
  if emotion_analysis.isEmpty then youthId
  else
    let lower := lowerList emotion_analysis
    if gentle_words.any (fun w => containsSub w lower) then gentleId
    else if charming_words.any (fun w => containsSub w lower) then charmingId
    else if authoritative_words.any (fun w => containsSub w lower) then ceoId
    else youthId

/-- `AudioService._voice_profile_map` (`dict.get`: `none` when absent). -/
def voice_profile_map (i : List Char) : Option (List Char) :=
  if i = charmingId then some "魅力女友".toList
  else if i = gentleId then some "柔美女友".toList
  else if i = ceoId then some "傲娇霸总".toList
  else if i = youthId then some "正直青年".toList
  else none

/-- The gentle keyword family matches the lowercased input. -/
def gentleHit (s : List Char) : Bool :=
  gentle_words.any (fun w => containsSub w (lowerList s))

/-- The charming keyword family matches the lowercased input. -/
def charmingHit (s : List Char) : Bool :=
  charming_words.any (fun w => containsSub w (lowerList s))

/-- The authoritative keyword family matches the lowercased input. -/
def authHit (s : List Char) : Bool :=
  authoritative_words.any (fun w => containsSub w (lowerList s))

/-! ## Helper lemmas -/

/-! ### The `scores` dict of `_reciprocal_rank_fusion` -/

theorem alookup_map_update_self (acc : List (String × ℚ)) (i : String) (v : ℚ) :
    alookup i (acc.map fun p => (p.1, if p.1 == i then p.2 + v else p.2))
      = (alookup i acc).map (· + v) := by
  induction acc with
  | nil => rfl
  | cons p rest ih =>
      by_cases hp : p.1 = i <;> simp [alookup, hp] at ih ⊢ <;> exact ih

theorem alookup_map_update_ne (acc : List (String × ℚ)) (i j : String) (v : ℚ)
    (hj : j ≠ i) :
    alookup j (acc.map fun p => (p.1, if p.1 == i then p.2 + v else p.2))
      = alookup j acc := by
  induction acc with
  | nil => rfl
  | cons p rest ih =>
      by_cases hp : p.1 = j
      · have hpi : ¬(p.1 = i) := by rw [hp]; exact hj
        simp [alookup, hp, hpi, hj]
      · simp [alookup, hp] at ih ⊢
        exact ih

theorem any_key_eq_isSome (acc : List (String × ℚ)) (i : String) :
    acc.any (fun p => p.1 == i) = (alookup i acc).isSome := by
  induction acc with
  | nil => rfl
  | cons p rest ih =>
      by_cases hp : p.1 = i <;> simp [alookup, hp, ih]

theorem alookup_append {α : Type} (i : String) (l₁ l₂ : List (String × α)) :
    alookup i (l₁ ++ l₂) = (alookup i l₁).or (alookup i l₂) := by
  induction l₁ with
  | nil => rfl
  | cons p rest ih =>
      by_cases hp : p.1 = i <;> simp [alookup, hp, ih]

theorem alookup_addScore_self (acc : List (String × ℚ)) (i : String) (v : ℚ) :
    alookup i (addScore acc i v) = some ((alookup i acc).getD 0 + v) := by
  unfold addScore
  rw [any_key_eq_isSome]
  rcases h : alookup i acc with _ | w
  · simp only [h, Option.isSome_none, Bool.false_eq_true, if_false]
    simp [alookup_append, h, alookup]
  · simp only [h, Option.isSome_some, if_true]
    rw [alookup_map_update_self, h]
    rfl

theorem alookup_addScore_ne (acc : List (String × ℚ)) (i j : String) (v : ℚ)
    (hj : j ≠ i) :
    alookup j (addScore acc i v) = alookup j acc := by
  unfold addScore
  split
  · exact alookup_map_update_ne acc i j v hj
  · simp [alookup_append, alookup, Ne.symm hj]

theorem keys_addScore (acc : List (String × ℚ)) (i : String) (v : ℚ) :
    (addScore acc i v).map Prod.fst
      = if (alookup i acc).isSome then acc.map Prod.fst
        else acc.map Prod.fst ++ [i] := by
  unfold addScore
  rw [any_key_eq_isSome]
  split
  · simp
  · simp

theorem isSome_of_mem_keys {α : Type} (acc : List (String × α)) (i : String)
    (h : i ∈ acc.map Prod.fst) : (alookup i acc).isSome := by
  induction acc with
  | nil => simp at h
  | cons p rest ih =>
      rcases List.mem_cons.mp h with h1 | h1
      · simp [alookup, h1.symm]
      · by_cases hp : p.1 = i <;> simp [alookup, hp, ih h1]

theorem mem_keys_of_isSome {α : Type} (acc : List (String × α)) (i : String)
    (h : (alookup i acc).isSome) : i ∈ acc.map Prod.fst := by
  induction acc with
  | nil => simp [alookup] at h
  | cons p rest ih =>
      by_cases hp : p.1 = i
      · simp [hp]
      · simp only [alookup, beq_iff_eq, if_neg hp] at h
        simp [ih h]

theorem mem_keys_addScore (acc : List (String × ℚ)) (i j : String) (v : ℚ) :
    j ∈ (addScore acc i v).map Prod.fst ↔ j ∈ acc.map Prod.fst ∨ j = i := by
  rw [keys_addScore]
  split
  · constructor
    · exact fun h => Or.inl h
    · rintro (h | rfl)
      · exact h
      · exact mem_keys_of_isSome acc j (by assumption)
  · simp

theorem nodup_keys_addScore (acc : List (String × ℚ)) (i : String) (v : ℚ)
    (h : (acc.map Prod.fst).Nodup) : ((addScore acc i v).map Prod.fst).Nodup := by
  rw [keys_addScore]
  split
  · exact h
  · have hni : i ∉ acc.map Prod.fst := fun hm => by
      have := isSome_of_mem_keys acc i hm
      simp_all
    simp [List.nodup_append, h, hni]

theorem alookup_scoreList_getD (k : ℕ) (l : List PMatch) (acc : List (String × ℚ))
    (rank : ℕ) (i : String) :
    (alookup i (scoreList k acc rank l)).getD 0
      = (alookup i acc).getD 0 + listContribAll k i rank l := by
  induction l generalizing acc rank with
  | nil => simp [scoreList, listContribAll]
  | cons m rest ih =>
      rw [scoreList, ih, listContribAll]
      by_cases hm : m.id = i
      · subst hm
        rw [alookup_addScore_self]
        simp [add_assoc]
      · rw [alookup_addScore_ne acc m.id i _ (fun h => hm h.symm)]
        simp [hm]

theorem mem_keys_scoreList (k : ℕ) (l : List PMatch) (acc : List (String × ℚ))
    (rank : ℕ) (i : String) :
    i ∈ (scoreList k acc rank l).map Prod.fst
      ↔ i ∈ acc.map Prod.fst ∨ ∃ m ∈ l, m.id = i := by
  induction l generalizing acc rank with
  | nil => simp [scoreList]
  | cons m rest ih =>
      rw [scoreList, ih, mem_keys_addScore]
      simp only [List.mem_cons]
      constructor
      · rintro ((h | rfl) | ⟨m', hm', rfl⟩)
        · exact Or.inl h
        · exact Or.inr ⟨m, Or.inl rfl, rfl⟩
        · exact Or.inr ⟨m', Or.inr hm', rfl⟩
      · rintro (h | ⟨m', (rfl | hm'), rfl⟩)
        · exact Or.inl (Or.inl h)
        · exact Or.inl (Or.inr rfl)
        · exact Or.inr ⟨m', hm', rfl⟩

theorem nodup_keys_scoreList (k : ℕ) (l : List PMatch) (acc : List (String × ℚ))
    (rank : ℕ) (h : (acc.map Prod.fst).Nodup) :
    ((scoreList k acc rank l).map Prod.fst).Nodup := by
  induction l generalizing acc rank with
  | nil => simpa [scoreList]
  | cons m rest ih => rw [scoreList]; exact ih _ _ (nodup_keys_addScore acc m.id _ h)

theorem alookup_rrf_foldl_getD (k : ℕ) (lists : List (List PMatch))
    (acc : List (String × ℚ)) (i : String) :
    (alookup i (lists.foldl (fun acc l => scoreList k acc 0 l) acc)).getD 0
      = (alookup i acc).getD 0 + (lists.map (listContribAll k i 0)).sum := by
  induction lists generalizing acc with
  | nil => simp
  | cons l rest ih =>
      rw [List.foldl_cons, ih, alookup_scoreList_getD]
      simp
      ring

theorem mem_keys_rrf_foldl (k : ℕ) (lists : List (List PMatch))
    (acc : List (String × ℚ)) (i : String) :
    i ∈ ((lists.foldl (fun acc l => scoreList k acc 0 l) acc).map Prod.fst)
      ↔ i ∈ acc.map Prod.fst ∨ ∃ l ∈ lists, ∃ m ∈ l, m.id = i := by
  induction lists generalizing acc with
  | nil => simp
  | cons l rest ih =>
      rw [List.foldl_cons, ih, mem_keys_scoreList]
      simp only [List.mem_cons]
      constructor
      · rintro ((h | ⟨m, hm, rfl⟩) | ⟨l', hl', m, hm, rfl⟩)
        · exact Or.inl h
        · exact Or.inr ⟨l, Or.inl rfl, m, hm, rfl⟩
        · exact Or.inr ⟨l', Or.inr hl', m, hm, rfl⟩
      · rintro (h | ⟨l', (rfl | hl'), m, hm, rfl⟩)
        · exact Or.inl (Or.inl h)
        · exact Or.inl (Or.inr ⟨m, hm, rfl⟩)
        · exact Or.inr ⟨l', hl', m, hm, rfl⟩

theorem nodup_keys_rrfScores (lists : List (List PMatch)) (k : ℕ) :
    ((rrfScores lists k).map Prod.fst).Nodup := by
  have haux : ∀ (L : List (List PMatch)) (acc : List (String × ℚ)),
      (acc.map Prod.fst).Nodup →
      ((L.foldl (fun acc l => scoreList k acc 0 l) acc).map Prod.fst).Nodup := by
    intro L
    induction L with
    | nil => intro acc h; simpa
    | cons l rest ih =>
        intro acc h
        rw [List.foldl_cons]
        exact ih _ (nodup_keys_scoreList k l acc 0 h)
  exact haux lists [] (by simp)

theorem mem_keys_rrfScores (lists : List (List PMatch)) (k : ℕ) (i : String) :
    i ∈ (rrfScores lists k).map Prod.fst ↔ ∃ l ∈ lists, ∃ m ∈ l, m.id = i := by
  rw [rrfScores, mem_keys_rrf_foldl]
  simp

theorem alookup_mem_of_nodup {α : Type} (acc : List (String × α)) (p : String × α)
    (hnd : (acc.map Prod.fst).Nodup) (hp : p ∈ acc) : alookup p.1 acc = some p.2 := by
  induction acc with
  | nil => cases hp
  | cons q rest ih =>
      rcases List.mem_cons.mp hp with rfl | hp'
      · simp [alookup]
      · have hq : q.1 ≠ p.1 := by
          intro he
          have h1 : p.1 ∈ rest.map Prod.fst := List.mem_map_of_mem Prod.fst hp'
          have := (List.nodup_cons.mp hnd).1
          exact this (he ▸ h1)
        simp only [alookup, beq_iff_eq, if_neg hq]
        exact ih (List.nodup_cons.mp hnd).2 hp'

theorem contribAll_of_not_mem (k : ℕ) (i : String) (l : List PMatch) (r : ℕ)
    (h : ∀ m ∈ l, m.id ≠ i) : listContribAll k i r l = 0 := by
  induction l generalizing r with
  | nil => rfl
  | cons m rest ih =>
      rw [listContribAll]
      have hm := h m (List.mem_cons_self m rest)
      simp [hm, ih _ (fun m' hm' => h m' (List.mem_cons_of_mem m hm'))]

theorem contribAll_eq_getD (k : ℕ) (i : String) (l : List PMatch) (r : ℕ)
    (hnd : (l.map PMatch.id).Nodup) :
    listContribAll k i r l = (listContrib k i r l).getD 0 := by
  induction l generalizing r with
  | nil => rfl
  | cons m rest ih =>
      have h' := hnd
      rw [List.map_cons, List.nodup_cons] at h'
      obtain ⟨hni, hrest⟩ := h'
      by_cases hm : m.id = i
      · have hzero : listContribAll k i (r + 1) rest = 0 := by
          apply contribAll_of_not_mem
          intro m' hm' he
          have hmem : m'.id ∈ rest.map PMatch.id := List.mem_map_of_mem PMatch.id hm'
          rw [he, ← hm] at hmem
          exact hni hmem
        rw [listContribAll, listContrib]
        simp [hm, hzero]
      · rw [listContribAll, listContrib]
        simp [hm, ih _ hrest]

theorem sum_map_getD_eq_filterMap (lists : List (List PMatch))
    (f : List PMatch → Option ℚ) :
    (lists.map (fun l => (f l).getD 0)).sum = (lists.filterMap f).sum := by
  induction lists with
  | nil => rfl
  | cons l rest ih => cases hf : f l <;> simp [List.filterMap_cons, hf, ih]

theorem rrfScores_value (lists : List (List PMatch)) (k : ℕ)
    (hnd : ∀ l ∈ lists, (l.map PMatch.id).Nodup) :
    ∀ p ∈ rrfScores lists k, p.2 = rrfSpecScore lists k p.1 := by
  intro p hp
  have h1 : alookup p.1 (rrfScores lists k) = some p.2 :=
    alookup_mem_of_nodup _ p (nodup_keys_rrfScores lists k) hp
  have h2 := alookup_rrf_foldl_getD k lists [] p.1
  rw [show (lists.foldl (fun acc l => scoreList k acc 0 l) [] : List (String × ℚ))
        = rrfScores lists k from rfl, h1] at h2
  simp only [alookup, Option.getD_some, Option.getD_none, zero_add] at h2
  have h3 : (lists.map (listContribAll k p.1 0)).sum = rrfSpecScore lists k p.1 := by
    rw [rrfSpecScore, ← sum_map_getD_eq_filterMap]
    congr 1
    apply List.map_congr_left
    intro l hl
    exact contribAll_eq_getD k p.1 l 0 (hnd l hl)
  exact h2.trans h3

theorem idToMatch_spec (lists : List (List PMatch)) (i : String) (m : PMatch)
    (h : idToMatch lists i = some m) : m.id = i ∧ m ∈ lists.flatten := by
  have hm := List.mem_of_getLast?_eq_some h
  obtain ⟨h1, h2⟩ := List.mem_filter.mp hm
  exact ⟨by simpa using h2, h1⟩

theorem idToMatch_isSome (lists : List (List PMatch)) (i : String)
    (h : ∃ m ∈ lists.flatten, m.id = i) : ∃ m, idToMatch lists i = some m := by
  obtain ⟨m, hm, hid⟩ := h
  have hmem : m ∈ lists.flatten.filter (fun m => m.id == i) :=
    List.mem_filter.mpr ⟨hm, by simp [hid]⟩
  have hne : lists.flatten.filter (fun m => m.id == i) ≠ [] :=
    List.ne_nil_of_mem hmem
  have := List.getLast?_isSome.mpr hne
  exact Option.isSome_iff_exists.mp this

theorem filterMap_idToMatch_ids (lists : List (List PMatch)) (ids : List String)
    (h : ∀ i ∈ ids, ∃ m, idToMatch lists i = some m) :
    (ids.filterMap (idToMatch lists)).map PMatch.id = ids := by
  induction ids with
  | nil => rfl
  | cons i rest ih =>
      obtain ⟨m, hm⟩ := h i (List.mem_cons_self i rest)
      have hid := (idToMatch_spec lists i m hm).1
      simp [List.filterMap_cons, hm, hid,
        ih (fun j hj => h j (List.mem_cons_of_mem i hj))]

theorem fused_ids (lists : List (List PMatch)) (k : ℕ) :
    (reciprocal_rank_fusion lists k).map PMatch.id
      = ((List.insertionSort scoreGe (rrfScores lists k)).map Prod.fst).take k := by
  show (((List.insertionSort scoreGe (rrfScores lists k)).map Prod.fst).filterMap
          (idToMatch lists) |>.take k).map PMatch.id = _
  rw [List.map_take]
  congr 1
  apply filterMap_idToMatch_ids
  intro i hi
  have hperm : List.Perm (List.insertionSort scoreGe (rrfScores lists k))
      (rrfScores lists k) :=
    List.perm_insertionSort _ _
  have hmem : i ∈ (rrfScores lists k).map Prod.fst :=
    (hperm.map Prod.fst).mem_iff.mp hi
  obtain ⟨l, hl, m, hm, hid⟩ := (mem_keys_rrfScores lists k i).mp hmem
  exact idToMatch_isSome lists i ⟨m, List.mem_flatten.mpr ⟨l, hl, hm⟩, hid⟩

theorem alookup_none_of_keys {α : Type} (l : List (String × α)) (i : String)
    (h : ∀ p ∈ l, p.1 ≠ i) : alookup i l = none := by
  induction l with
  | nil => rfl
  | cons p rest ih =>
      have hp := h p (List.mem_cons_self p rest)
      simp only [alookup, beq_iff_eq, if_neg hp]
      exact ih fun q hq => h q (List.mem_cons_of_mem p hq)

theorem userid_mem_retrieve_context_filter (b : String)
    (extra : Option (List (String × String)))
    (hex : ∀ l, extra = some l → ∀ p ∈ l, p.1 ≠ "user_id") :
    ("user_id", b) ∈ retrieve_context_filter b extra := by
  cases extra with
  | none => simp [retrieve_context_filter]
  | some l =>
      have hl : alookup "user_id" l = none := alookup_none_of_keys l _ (hex l rfl)
      simp [retrieve_context_filter, dictUpdate, hl]

theorem query_scoped_userid (store : List Record) (filt : List (String × String))
    (tk : ℕ) (u : String) (hmem : ("user_id", u) ∈ filt) :
    ∀ r ∈ pineconeQuery store filt tk, alookup "user_id" r.metadata = some u := by
  intro r hr
  have hr' : r ∈ store.filter (fun r => matchesFilter r.metadata filt) :=
    List.mem_of_mem_take hr
  have hm : matchesFilter r.metadata filt = true := (List.mem_filter.mp hr').2
  have hall := List.all_eq_true.mp hm ("user_id", u) hmem
  simpa using hall

/-! ### Python `str.find` on character lists -/

theorem leadsList_iff_take (pat : List Char) : ∀ s : List Char,
    leadsList pat s = true ↔ s.take pat.length = pat := by
  induction pat with
  | nil => intro s; simp [leadsList]
  | cons a ps ih =>
      intro s
      cases s with
      | nil => simp [leadsList]
      | cons b bs =>
          simp only [leadsList, Bool.and_eq_true, beq_iff_eq, List.length_cons,
            List.take_succ_cons, List.cons.injEq, ih bs]
          constructor
          · rintro ⟨rfl, h⟩; exact ⟨rfl, h⟩
          · rintro ⟨rfl, h⟩; exact ⟨rfl, h⟩

theorem leadsList_append_self (pat rest : List Char) :
    leadsList pat (pat ++ rest) = true := by
  rw [leadsList_iff_take]
  exact List.take_left pat rest

theorem strFind_none_no_leads (pat : List Char) : ∀ s : List Char,
    strFind pat s = none → ∀ i, leadsList pat (s.drop i) = false := by
  intro s
  induction s with
  | nil =>
      intro h i
      rw [List.drop_nil]
      cases hb : leadsList pat [] with
      | false => rfl
      | true => rw [strFind, if_pos hb] at h; cases h
  | cons b t ih =>
      intro h i
      rw [strFind] at h
      cases hb : leadsList pat (b :: t) with
      | true => rw [if_pos hb] at h; cases h
      | false =>
          rw [if_neg (by simp [hb])] at h
          have ht : strFind pat t = none := by
            cases hf : strFind pat t with
            | none => rfl
            | some j => rw [hf] at h; cases h
          cases i with
          | zero => simpa using hb
          | succ i' =>
              rw [List.drop_succ_cons]
              exact ih ht i'

theorem strFind_isSome_of_leads (pat s : List Char) (i : ℕ)
    (h : leadsList pat (s.drop i) = true) : (strFind pat s).isSome := by
  cases hf : strFind pat s with
  | none => rw [strFind_none_no_leads pat s hf i] at h; cases h
  | some j => simp

theorem strFind_of_leads_first (pat s : List Char) (h : leadsList pat s = true) :
    strFind pat s = some 0 := by
  cases s with
  | nil => rw [strFind, if_pos h]
  | cons b t => rw [strFind, if_pos h]

theorem strFind_append_of_no_early (pat : List Char) : ∀ pre : List Char,
    ∀ rest : List Char,
    (∀ i, i < pre.length → leadsList pat ((pre ++ rest).drop i) = false) →
    leadsList pat rest = true →
    strFind pat (pre ++ rest) = some pre.length := by
  intro pre
  induction pre with
  | nil =>
      intro rest _ hhit
      simpa using strFind_of_leads_first pat rest hhit
  | cons a pre' ih =>
      intro rest hpre hhit
      have h0 : leadsList pat (a :: (pre' ++ rest)) = false := by
        have := hpre 0 (by simp)
        simpa using this
      rw [List.cons_append, strFind, if_neg (by simp [h0])]
      have hrec := ih rest
        (fun i hi => by
          have := hpre (i + 1) (by simpa using Nat.succ_lt_succ hi)
          simpa using this)
        hhit
      rw [hrec]
      rfl

theorem leads_restrict (pat l₁ l₂ : List Char) (i : ℕ)
    (h : leadsList pat ((l₁ ++ l₂).drop i) = true)
    (hle : i + pat.length ≤ l₁.length) :
    leadsList pat (l₁.drop i) = true := by
  rw [leadsList_iff_take] at h ⊢
  rw [List.drop_append_of_le_length (by omega)] at h
  rw [List.take_append_of_le_length (by simp [List.length_drop]; omega)] at h
  exact h

theorem strFind_first_at (pat pre rest : List Char) (hpat : pat ≠ [])
    (hno : strFind pat (pre ++ pat.dropLast) = none) :
    strFind pat (pre ++ (pat ++ rest)) = some pre.length := by
  apply strFind_append_of_no_early
  · intro i hi
    cases hb : leadsList pat ((pre ++ (pat ++ rest)).drop i) with
    | false => rfl
    | true =>
        exfalso
        have hpl : 0 < pat.length := List.length_pos.mpr hpat
        have hassoc : pre ++ (pat ++ rest)
            = (pre ++ pat.dropLast) ++ ([pat.getLast hpat] ++ rest) := by
          conv_lhs => rw [← List.dropLast_append_getLast hpat]
          simp [List.append_assoc]
        rw [hassoc] at hb
        have hlen : i + pat.length ≤ (pre ++ pat.dropLast).length := by
          simp only [List.length_append, List.length_dropLast]
          omega
        have hlead := leads_restrict pat _ _ i hb hlen
        have hS := strFind_isSome_of_leads pat (pre ++ pat.dropLast) i hlead
        rw [hno] at hS
        simp at hS
  · exact leadsList_append_self pat rest

theorem strFind_single_none (a : Char) : ∀ s : List Char, a ∉ s →
    strFind [a] s = none := by
  intro s
  induction s with
  | nil => intro _; rfl
  | cons b t ih =>
      intro h
      have hab : ¬(a = b) := fun he => h (he ▸ List.mem_cons_self b t)
      rw [strFind, if_neg (by simp [leadsList, hab]),
        ih (fun hm => h (List.mem_cons_of_mem b hm))]
      rfl

/-! ## Claim theorems -/

/-- C4: with an empty conversation history, `rephrase_query_with_context`
returns the query itself, exactly and unchanged, and does not invoke the
model (the invocation flag of the embedding stays `false`), for every
query and every model oracle. -/
theorem rephrase_empty_history_id (oracle : String → Except String String) (q : String) :
    rephrase_query_with_context oracle q [] = (q, false) := rfl

/-- C10: whenever `rag_pipeline` is invoked with an `input_type` that is
neither `"text"` nor `"audio"` (the image path), the voice-profile
component it returns is `None`, regardless of the content and of what
the audio or text classifiers would have produced. -/
theorem image_path_no_voice_profile (input_type : String) (content : Option String)
    (audioOutcome : Option String) (textOutcome : String)
    (ht : input_type ≠ "text") (ha : input_type ≠ "audio") :
    rag_pipeline_voice_profile input_type content audioOutcome textOutcome = none := by
  simp [rag_pipeline_voice_profile, ht, ha]

theorem image_path_no_voice_profile_witness :
    rag_pipeline_voice_profile "image_base64" (some "payload") (some "柔美女友")
      "正直青年" = none :=
  image_path_no_voice_profile "image_base64" (some "payload") (some "柔美女友")
    "正直青年" (by decide) (by decide)

/-- C9: `add_extracted_info_to_vector_db` never raises: it is total, and
for every input it returns `False` with nothing stored when the
embedding call or the upsert fails, returns `True` having upserted
exactly one record on success, and `rag_pipeline` continues identically
whatever the persist outcome was. -/
theorem persist_never_raises (user_id rq ts : String) (p : ExtractedPayload)
    (embedOutcome : Except String (List ℚ)) (upsertOutcome : Except String Unit) :
    (∀ e, embedOutcome = .error e →
      add_extracted_info_to_vector_db user_id p ts embedOutcome upsertOutcome
        = ⟨false, []⟩) ∧
    (∀ v e, embedOutcome = .ok v → upsertOutcome = .error e →
      add_extracted_info_to_vector_db user_id p ts embedOutcome upsertOutcome
        = ⟨false, []⟩) ∧
    (∀ v, embedOutcome = .ok v → upsertOutcome = .ok () →
      add_extracted_info_to_vector_db user_id p ts embedOutcome upsertOutcome
        = ⟨true, [⟨user_id ++ "_" ++ ts ++ "_extracted",
                   extractedMetadata user_id p ts⟩]⟩ ∧
      (add_extracted_info_to_vector_db user_id p ts embedOutcome upsertOutcome).upserts.length
        = 1) ∧
    (∀ r₁ r₂ : PersistResult,
      rag_pipeline_after_persist user_id rq r₁ = rag_pipeline_after_persist user_id rq r₂) := by
  refine ⟨?_, ?_, ?_, fun _ _ => rfl⟩
  · rintro e rfl; rfl
  · rintro v e rfl rfl; rfl
  · rintro v rfl rfl; exact ⟨rfl, rfl⟩

theorem persist_never_raises_witness :
    add_extracted_info_to_vector_db "alice" (.newFmt "met her sister") "t0"
        (.error "embed failed") (.ok ()) = ⟨false, []⟩ ∧
    add_extracted_info_to_vector_db "alice" (.newFmt "met her sister") "t0"
        (.ok [1]) (.ok ())
      = ⟨true, [⟨"alice" ++ "_" ++ "t0" ++ "_extracted",
                 extractedMetadata "alice" (.newFmt "met her sister") "t0"⟩]⟩ :=
  ⟨(persist_never_raises "alice" "q" "t0" (.newFmt "met her sister")
      (.error "embed failed") (.ok ())).1 "embed failed" rfl,
   ((persist_never_raises "alice" "q" "t0" (.newFmt "met her sister")
      (.ok [1]) (.ok ())).2.2.1 [1] rfl rfl).1⟩

/-- C6: `_generate_multiqueries` with requested count `n ≥ 1` returns,
when the model call succeeds with at least `n - 1` usable lines, the
original query verbatim as the first element followed by the first
`n - 1` model paraphrases, `n` strings in total; a model failure is not
caught and propagates unchanged to the caller. -/
theorem multiqueries_shape_and_propagation (q : String) (n : ℕ) (hn : 1 ≤ n)
    (modelOut : Except String String) :
    (∀ e, modelOut = .error e → generate_multiqueries q n modelOut = .error e) ∧
    (∀ content, modelOut = .ok content →
      n - 1 ≤ (modelParaphrases content).length →
      generate_multiqueries q n modelOut
          = .ok (q :: (modelParaphrases content).take (n - 1)) ∧
      (q :: (modelParaphrases content).take (n - 1)).length = n) := by
  constructor
  · rintro e rfl; rfl
  · rintro content rfl hlen
    obtain ⟨m, rfl⟩ : ∃ m, n = m + 1 := ⟨n - 1, by omega⟩
    refine ⟨?_, ?_⟩
    · simp [generate_multiqueries, modelParaphrases, List.take_succ_cons]
    · simp only [List.length_cons, List.length_take]
      omega

theorem multiqueries_witness :
    generate_multiqueries "what did I say" 3
        (.ok "- first paraphrase\n- second paraphrase\n- third paraphrase")
      = .ok ["what did I say", "first paraphrase", "second paraphrase"] := by
  have h := (multiqueries_shape_and_propagation "what did I say" 3 (by decide)
      (.ok "- first paraphrase\n- second paraphrase\n- third paraphrase")).2
      "- first paraphrase\n- second paraphrase\n- third paraphrase" rfl (by decide)
  exact h.1.trans (by rfl)

/-- C8: `_classify_voice_profile` checks the keyword families in the
fixed priority order gentle → charming → authoritative over the
lowercased emotion-analysis string, returns the persona of the first
family that matches, returns the Righteous Youth persona for empty or
unmatched input, and each of the four persona names is the output for
at least one literal keyword input. -/
theorem voice_profile_priority_and_reachability :
    (classify_voice_profile [] = youthId ∧
     voice_profile_map youthId = some "正直青年".toList) ∧
    (∀ s : List Char, s.isEmpty = false → gentleHit s = true →
      classify_voice_profile s = gentleId) ∧
    (∀ s : List Char, s.isEmpty = false → gentleHit s = false → charmingHit s = true →
      classify_voice_profile s = charmingId) ∧
    (∀ s : List Char, s.isEmpty = false → gentleHit s = false → charmingHit s = false →
      authHit s = true → classify_voice_profile s = ceoId) ∧
    (∀ s : List Char, gentleHit s = false → charmingHit s = false → authHit s = false →
      classify_voice_profile s = youthId) ∧
    (voice_profile_map (classify_voice_profile "soft".toList) = some "柔美女友".toList ∧
     voice_profile_map (classify_voice_profile "charming".toList) = some "魅力女友".toList ∧
     voice_profile_map (classify_voice_profile "boss".toList) = some "傲娇霸总".toList ∧
     voice_profile_map (classify_voice_profile "nothing that matches".toList)
        = some "正直青年".toList) := by
  refine ⟨⟨by decide, by decide⟩, ?_, ?_, ?_, ?_, by decide⟩
  · intro s hne hg
    simp only [gentleHit] at hg
    simp [classify_voice_profile, hne, hg]
  · intro s hne hg hc
    simp only [gentleHit] at hg
    simp only [charmingHit] at hc
    simp [classify_voice_profile, hne, hg, hc]
  · intro s hne hg hc ha
    simp only [gentleHit] at hg
    simp only [charmingHit] at hc
    simp only [authHit] at ha
    simp [classify_voice_profile, hne, hg, hc, ha]
  · intro s hg hc ha
    simp only [gentleHit] at hg
    simp only [charmingHit] at hc
    simp only [authHit] at ha
    rcases hE : s.isEmpty with _ | _ <;>
      simp [classify_voice_profile, hE, hg, hc, ha]

theorem voice_profile_witness :
    classify_voice_profile "The speaker sounds soft and caring".toList = gentleId :=
  (voice_profile_priority_and_reachability.2.1)
    "The speaker sounds soft and caring".toList (by decide) (by decide)

set_option maxRecDepth 8000 in
/-- C7: for an utterance carrying a well-formed inline annotation
`[Emotional context: ...]` (first marker occurrence at that spot, a
closing bracket after it, nonblank content), `extract_key_info` removes
the annotation from the text placed in the prompt's `User message`
part, supplies the bracketed content instead as a separate
`Emotional Context` annotation in the same prompt, and invokes the
completion model with temperature 0. -/
theorem extract_key_info_annotation_handling (pre c post cc : List Char)
    (hno : strFind emoMarker (pre ++ emoMarker.dropLast) = none)
    (hc : ']' ∉ c) (hce : (pyStripWs c).isEmpty = false) :
    (extract_key_info_build (pre ++ (emoMarker ++ (c ++ ([']'] ++ post)))) cc).mainText
        = pyStripWs pre ++ pyStripWs post ∧
    (extract_key_info_build (pre ++ (emoMarker ++ (c ++ ([']'] ++ post)))) cc).emotional_context
        = pyStripWs c ∧
    (extract_key_info_build (pre ++ (emoMarker ++ (c ++ ([']'] ++ post)))) cc).emotion_prompt
        = "\n\nEmotional Context: ".toList ++ pyStripWs c ∧
    (extract_key_info_build (pre ++ (emoMarker ++ (c ++ ([']'] ++ post)))) cc).temperature
        = 0 ∧
    (∃ head, (extract_key_info_build (pre ++ (emoMarker ++ (c ++ ([']'] ++ post)))) cc).prompt
        = head ++ ("\n\nEmotional Context: ".toList ++ (pyStripWs c ++
            ("\n\nUser message: ".toList ++ ((pyStripWs pre ++ pyStripWs post) ++
              "\n\nExtracted information (one sentence):".toList))))) := by
  have hmlen : emoMarker.length = 19 := by decide
  have hfind1 : strFind emoMarker (pre ++ (emoMarker ++ (c ++ ([']'] ++ post))))
      = some pre.length :=
    strFind_first_at emoMarker pre (c ++ ([']'] ++ post)) (by decide) hno
  have hmem : (']' : Char) ∉ emoMarker ++ c := by
    intro hm
    rcases List.mem_append.mp hm with h1 | h1
    · revert h1; decide
    · exact hc h1
  have hno2 : strFind [']'] ((emoMarker ++ c) ++ ([']'] : List Char).dropLast) = none := by
    rw [show ([']'] : List Char).dropLast = [] from rfl, List.append_nil]
    exact strFind_single_none ']' _ hmem
  have hfind2' : strFind [']'] (emoMarker ++ (c ++ ([']'] ++ post)))
      = some (19 + c.length) := by
    have h := strFind_first_at [']'] (emoMarker ++ c) post (by decide) hno2
    rw [List.append_assoc] at h
    rw [h]
    simp [List.length_append, hmlen]
  have hdrop1 : (pre ++ (emoMarker ++ (c ++ ([']'] ++ post)))).drop pre.length
      = emoMarker ++ (c ++ ([']'] ++ post)) :=
    List.drop_left pre (emoMarker ++ (c ++ ([']'] ++ post)))
  have hfind2 : strFindFrom [']'] (pre ++ (emoMarker ++ (c ++ ([']'] ++ post)))) pre.length
      = some (19 + c.length + pre.length) := by
    rw [strFindFrom, hdrop1, hfind2']
    rfl
  have htake : (pre ++ (emoMarker ++ (c ++ ([']'] ++ post)))).take pre.length = pre :=
    List.take_left pre (emoMarker ++ (c ++ ([']'] ++ post)))
  have hdrop_e1 : (pre ++ (emoMarker ++ (c ++ ([']'] ++ post)))).drop
      (19 + c.length + pre.length + 1) = post := by
    rw [show pre ++ (emoMarker ++ (c ++ ([']'] ++ post)))
          = (pre ++ (emoMarker ++ (c ++ [']']))) ++ post by simp [List.append_assoc]]
    apply List.drop_left'
    simp only [List.length_append, hmlen, List.length_cons, List.length_nil]
    omega
  have hdrop_s19 : (pre ++ (emoMarker ++ (c ++ ([']'] ++ post)))).drop
      (pre.length + 19) = c ++ ([']'] ++ post) := by
    rw [show pre ++ (emoMarker ++ (c ++ ([']'] ++ post)))
          = (pre ++ emoMarker) ++ (c ++ ([']'] ++ post)) by simp [List.append_assoc]]
    apply List.drop_left'
    simp [hmlen]
  have htake_c : ((pre ++ (emoMarker ++ (c ++ ([']'] ++ post)))).drop
        (pre.length + 19)).take (19 + c.length + pre.length - (pre.length + 19)) = c := by
    rw [hdrop_s19, show 19 + c.length + pre.length - (pre.length + 19) = c.length by omega]
    exact List.take_left c ([']'] ++ post)
  refine ⟨?_, ?_, ?_, ?_, ?_⟩
  · simp only [extract_key_info_build, hfind1, hfind2, htake, hdrop_e1]
  · simp only [extract_key_info_build, hfind1, hfind2, htake_c]
  · simp only [extract_key_info_build, hfind1, hfind2, htake_c, hce,
      Bool.false_eq_true, if_false]
  · simp only [extract_key_info_build]
  · refine ⟨"Extract key information from the user message and summarize it in ONE natural sentence. ".toList ++
      ("Include: who (people mentioned), what (main event/action), when (time references), ".toList ++
      ("where (locations), why (purpose/intent), and emotional state. ".toList ++
      ("Make it conversational and natural, like you".toList ++ ([Char.ofNat 39] ++
      ("re describing what the user said to someone else.".toList ++
      (if cc.isEmpty then [] else "\n\nConversation Context: ".toList ++ cc)))))), ?_⟩
    simp only [extract_key_info_build, hfind1, hfind2, htake, hdrop_e1, htake_c, hce,
      Bool.false_eq_true, if_false]
    simp [List.append_assoc]

theorem extract_key_info_annotation_witness :
    ((strFind emoMarker ("I feel ".toList ++ emoMarker.dropLast) = none) ∧
      (']' ∉ " happy".toList) ∧
      ((pyStripWs " happy".toList).isEmpty = false)) ∧
    ((extract_key_info_build
        ("I feel ".toList ++ (emoMarker ++ (" happy".toList ++ ([']'] ++ " today".toList))))
        "ctx".toList).mainText
        = pyStripWs "I feel ".toList ++ pyStripWs " today".toList ∧
      (extract_key_info_build
        ("I feel ".toList ++ (emoMarker ++ (" happy".toList ++ ([']'] ++ " today".toList))))
        "ctx".toList).emotional_context = pyStripWs " happy".toList ∧
      (extract_key_info_build
        ("I feel ".toList ++ (emoMarker ++ (" happy".toList ++ ([']'] ++ " today".toList))))
        "ctx".toList).emotion_prompt
        = "\n\nEmotional Context: ".toList ++ pyStripWs " happy".toList ∧
      (extract_key_info_build
        ("I feel ".toList ++ (emoMarker ++ (" happy".toList ++ ([']'] ++ " today".toList))))
        "ctx".toList).temperature = 0 ∧
      (∃ head, (extract_key_info_build
        ("I feel ".toList ++ (emoMarker ++ (" happy".toList ++ ([']'] ++ " today".toList))))
        "ctx".toList).prompt
        = head ++ ("\n\nEmotional Context: ".toList ++ (pyStripWs " happy".toList ++
            ("\n\nUser message: ".toList ++
              ((pyStripWs "I feel ".toList ++ pyStripWs " today".toList) ++
              "\n\nExtracted information (one sentence):".toList)))))) :=
  ⟨⟨by decide, by decide, by decide⟩,
   extract_key_info_annotation_handling "I feel ".toList " happy".toList " today".toList
     "ctx".toList (by decide) (by decide) (by decide)⟩

/-- C2: every fact record the pipeline writes carries the owning
`user_id` in its metadata (in both the new-format and the legacy
branch), every vector-store query the service issues — the
relevant-fact retrieval, the semantic-context retrieval, and the
multi-query retrieval (whose caller-supplied extra filters, never used
with a `user_id` key by this repository, are hypothesised not to
override it) — carries a filter pinning `user_id`, and therefore no
retrieval for one user can return a record written for a different
user. -/
theorem user_scoping_no_cross_user_leakage
    (a b ts : String) (pa : ExtractedPayload) (hab : a ≠ b)
    (store : List Record) (extra : Option (List (String × String)))
    (hex : ∀ l, extra = some l → ∀ p ∈ l, p.1 ≠ "user_id") (tk : ℕ) :
    alookup "user_id" (extractedMetadata a pa ts) = some a ∧
    (∀ r ∈ pineconeQuery store (retrieve_extracted_info_query b 5).filter tk,
        alookup "user_id" r.metadata = some b) ∧
    (∀ q : String, ∀ r ∈ pineconeQuery store (retrieve_semantic_context_query b q).filter tk,
        alookup "user_id" r.metadata = some b) ∧
    (∀ r ∈ pineconeQuery store (retrieve_context_filter b extra) tk,
        alookup "user_id" r.metadata = some b) ∧
    (∀ r : Record, r.metadata = extractedMetadata a pa ts →
        r ∉ pineconeQuery store (retrieve_extracted_info_query b 5).filter tk ∧
        (∀ q : String, r ∉ pineconeQuery store (retrieve_semantic_context_query b q).filter tk) ∧
        r ∉ pineconeQuery store (retrieve_context_filter b extra) tk) := by
  have hmeta : alookup "user_id" (extractedMetadata a pa ts) = some a := rfl
  have h1 := query_scoped_userid store (retrieve_extracted_info_query b 5).filter tk b
    (by simp [retrieve_extracted_info_query])
  have h2 : ∀ q : String,
      ∀ r ∈ pineconeQuery store (retrieve_semantic_context_query b q).filter tk,
        alookup "user_id" r.metadata = some b :=
    fun q => query_scoped_userid store _ tk b (by simp [retrieve_semantic_context_query])
  have h3 := query_scoped_userid store (retrieve_context_filter b extra) tk b
    (userid_mem_retrieve_context_filter b extra hex)
  refine ⟨hmeta, h1, h2, h3, ?_⟩
  intro r hr
  refine ⟨fun hm => ?_, fun q hm => ?_, fun hm => ?_⟩
  · exact hab (Option.some_injective _ ((hr ▸ h1 r hm).symm.trans hmeta)).symm
  · exact hab (Option.some_injective _ ((hr ▸ h2 q r hm).symm.trans hmeta)).symm
  · exact hab (Option.some_injective _ ((hr ▸ h3 r hm).symm.trans hmeta)).symm

theorem user_scoping_witness :
    alookup "user_id" (extractedMetadata "alice" (.newFmt "met her sister") "t0")
        = some "alice" ∧
    (⟨"alice_t0_extracted", extractedMetadata "alice" (.newFmt "met her sister") "t0"⟩ :
        Record) ∉
      pineconeQuery
        [⟨"alice_t0_extracted", extractedMetadata "alice" (.newFmt "met her sister") "t0"⟩]
        (retrieve_extracted_info_query "bob" 5).filter 5 := by
  have h := user_scoping_no_cross_user_leakage "alice" "bob" "t0" (.newFmt "met her sister")
    (by decide)
    [⟨"alice_t0_extracted", extractedMetadata "alice" (.newFmt "met her sister") "t0"⟩]
    none (fun l hl => nomatch hl) 5
  exact ⟨h.1, (h.2.2.2.2 _ rfl).1⟩

/-- C5 counterexample: in the pipeline's retrieval step, the
relevant-fact retrieval does not query the vector store with the
rewritten query — the text it embeds is the fixed string
`"user {user_id} extracted info"`, shown here at a concrete input where
the two differ. -/
theorem relevant_retrieval_ignores_rewritten_query_cex :
    ((rag_pipeline_retrieval_queries "u1" "did I mention my sister").head?.map
        QueryEvent.queryText) = some "user u1 extracted info" ∧
    "user u1 extracted info" ≠ "did I mention my sister" := by
  exact ⟨rfl, by decide⟩

/-- C5 (amended): of the two retrieval steps `rag_pipeline` runs with
the rewritten query, only the semantic-context retrieval (top 3,
extracted-info record type, 0.7 similarity threshold) actually embeds
the rewritten query; the relevant-fact retrieval (top 5, same record
type) ignores the message it is handed and embeds the fixed text
`"user {user_id} extracted info"`, so its vector-store query uses
neither the rewritten nor the original utterance. -/
theorem retrieval_query_usage (user_id rq : String) (ms : List ScoredMatch) :
    (retrieve_semantic_context_query user_id rq).queryText = rq ∧
    (retrieve_semantic_context_query user_id rq).topK = 3 ∧
    ("type", "extracted_info") ∈ (retrieve_semantic_context_query user_id rq).filter ∧
    (∀ p ∈ semantic_parts ms, ∃ m, m ∈ ms ∧ (7 : ℚ)/10 < m.score ∧
        alookup "extracted_info" m.metadata = some p) ∧
    (build_relevant_context_query user_id rq).queryText
        = "user " ++ user_id ++ " extracted info" ∧
    (build_relevant_context_query user_id rq).topK = 5 ∧
    ("type", "extracted_info") ∈ (build_relevant_context_query user_id rq).filter ∧
    (∀ rq₂ : String,
      build_relevant_context_query user_id rq = build_relevant_context_query user_id rq₂) ∧
    rag_pipeline_retrieval_queries user_id rq
      = [build_relevant_context_query user_id rq,
         retrieve_semantic_context_query user_id rq] := by
  refine ⟨rfl, rfl, by simp [retrieve_semantic_context_query], ?_, rfl, rfl,
    by simp [build_relevant_context_query, retrieve_extracted_info_query],
    fun _ => rfl, rfl⟩
  intro p hp
  obtain ⟨m, hm, hf⟩ := List.mem_filterMap.mp hp
  obtain ⟨hmm, hpred⟩ := List.mem_filter.mp hm
  exact ⟨m, hmm, of_decide_eq_true hpred, hf⟩

/-- C1: reciprocal rank fusion over ranked lists (distinct ids within
each list) and positive `k`: every accumulated score is the sum of
`1/(k+rank)` over the lists in which the id appears; the fused output is
ordered by accumulated score descending, each id appears at most once,
the output has length at most `k`, and every output match comes from the
input lists. -/
theorem rrf_fusion_correct (lists : List (List PMatch)) (k : ℕ) (hk : 0 < k)
    (hnd : ∀ l ∈ lists, (l.map PMatch.id).Nodup) :
    (∀ p ∈ rrfScores lists k, p.2 = rrfSpecScore lists k p.1) ∧
    ((reciprocal_rank_fusion lists k).map
        (fun m => rrfSpecScore lists k m.id)).Pairwise (· ≥ ·) ∧
    ((reciprocal_rank_fusion lists k).map PMatch.id).Nodup ∧
    (reciprocal_rank_fusion lists k).length ≤ k ∧
    (∀ m ∈ reciprocal_rank_fusion lists k, m ∈ lists.flatten) := by
  have hval := rrfScores_value lists k hnd
  have hperm : List.Perm (List.insertionSort scoreGe (rrfScores lists k))
      (rrfScores lists k) := List.perm_insertionSort _ _
  have hsorted : List.Sorted scoreGe (List.insertionSort scoreGe (rrfScores lists k)) :=
    List.sorted_insertionSort scoreGe _
  have hrfl : reciprocal_rank_fusion lists k
      = (((List.insertionSort scoreGe (rrfScores lists k)).map Prod.fst).filterMap
          (idToMatch lists)).take k := rfl
  refine ⟨hval, ?_, ?_, ?_, ?_⟩
  · have hpw : (List.insertionSort scoreGe (rrfScores lists k)).Pairwise
        (fun p q => rrfSpecScore lists k q.1 ≤ rrfSpecScore lists k p.1) := by
      refine List.Pairwise.imp_of_mem ?_ hsorted
      intro p q hp hq hr
      have hvp := hval p (hperm.mem_iff.mp hp)
      have hvq := hval q (hperm.mem_iff.mp hq)
      rw [← hvp, ← hvq]
      exact hr
    have h1 : (reciprocal_rank_fusion lists k).map (fun m => rrfSpecScore lists k m.id)
        = ((reciprocal_rank_fusion lists k).map PMatch.id).map (rrfSpecScore lists k) := by
      rw [List.map_map]; rfl
    rw [h1, fused_ids, List.map_take, List.map_map]
    exact List.Pairwise.sublist (List.take_sublist _ _) ((List.pairwise_map).mpr hpw)
  · have hnk : ((rrfScores lists k).map Prod.fst).Nodup := nodup_keys_rrfScores lists k
    have hns : ((List.insertionSort scoreGe (rrfScores lists k)).map Prod.fst).Nodup :=
      ((hperm.map Prod.fst).nodup_iff).mpr hnk
    rw [fused_ids]
    exact List.Nodup.sublist (List.take_sublist _ _) hns
  · rw [hrfl]
    simp [List.length_take]
  · intro m hm
    rw [hrfl] at hm
    have hm1 := List.mem_of_mem_take hm
    obtain ⟨i, hi, hsome⟩ := List.mem_filterMap.mp hm1
    exact (idToMatch_spec lists i m hsome).2

theorem rrf_fusion_correct_witness :
    ((0 : ℕ) < 2 ∧
      (∀ l ∈ [[(⟨"a", "ta"⟩ : PMatch), ⟨"b", "tb"⟩], [⟨"b", "tb"⟩, ⟨"c", "tc"⟩]],
        (l.map PMatch.id).Nodup)) ∧
    ((∀ p ∈ rrfScores [[(⟨"a", "ta"⟩ : PMatch), ⟨"b", "tb"⟩], [⟨"b", "tb"⟩, ⟨"c", "tc"⟩]] 2,
        p.2 = rrfSpecScore [[(⟨"a", "ta"⟩ : PMatch), ⟨"b", "tb"⟩], [⟨"b", "tb"⟩, ⟨"c", "tc"⟩]]
          2 p.1) ∧
      ((reciprocal_rank_fusion [[(⟨"a", "ta"⟩ : PMatch), ⟨"b", "tb"⟩],
          [⟨"b", "tb"⟩, ⟨"c", "tc"⟩]] 2).map
        (fun m => rrfSpecScore [[(⟨"a", "ta"⟩ : PMatch), ⟨"b", "tb"⟩],
          [⟨"b", "tb"⟩, ⟨"c", "tc"⟩]] 2 m.id)).Pairwise (· ≥ ·) ∧
      ((reciprocal_rank_fusion [[(⟨"a", "ta"⟩ : PMatch), ⟨"b", "tb"⟩],
          [⟨"b", "tb"⟩, ⟨"c", "tc"⟩]] 2).map PMatch.id).Nodup ∧
      (reciprocal_rank_fusion [[(⟨"a", "ta"⟩ : PMatch), ⟨"b", "tb"⟩],
          [⟨"b", "tb"⟩, ⟨"c", "tc"⟩]] 2).length ≤ 2 ∧
      (∀ m ∈ reciprocal_rank_fusion [[(⟨"a", "ta"⟩ : PMatch), ⟨"b", "tb"⟩],
          [⟨"b", "tb"⟩, ⟨"c", "tc"⟩]] 2,
        m ∈ [[(⟨"a", "ta"⟩ : PMatch), ⟨"b", "tb"⟩], [⟨"b", "tb"⟩, ⟨"c", "tc"⟩]].flatten)) :=
  ⟨⟨by decide, by decide⟩, rrf_fusion_correct _ 2 (by decide) (by decide)⟩

/-- C3: when one id sits at rank 0 of every one of the (nonempty
collection of) input lists, its fused score is exactly `L/k`, that is
the maximum attainable score, it is strictly above every other id's
score, and the fused output places that match first. -/
theorem rrf_unanimous_first_rank (lists : List (List PMatch)) (k : ℕ) (sid : String)
    (hk : 0 < k) (hne : lists ≠ [])
    (hnd : ∀ l ∈ lists, (l.map PMatch.id).Nodup)
    (hfirst : ∀ l ∈ lists, l.head?.map PMatch.id = some sid) :
    rrfSpecScore lists k sid = (lists.length : ℚ) / k ∧
    (∀ i, rrfSpecScore lists k i ≤ (lists.length : ℚ) / k) ∧
    (∀ i, i ≠ sid → rrfSpecScore lists k i < rrfSpecScore lists k sid) ∧
    (reciprocal_rank_fusion lists k).head?.map PMatch.id = some sid := by
  have hkQ : (0 : ℚ) < (k : ℚ) := by exact_mod_cast hk
  have hhead : ∀ l ∈ lists, ∃ m rest, l = m :: rest ∧ m.id = sid := by
    intro l hl
    cases l with
    | nil => have := hfirst [] hl; simp at this
    | cons m rest =>
        refine ⟨m, rest, rfl, ?_⟩
        have := hfirst (m :: rest) hl
        simpa using this
  have hcon : ∀ l ∈ lists, listContrib k sid 0 l = some (1 / (k : ℚ)) := by
    intro l hl
    obtain ⟨m, rest, rfl, hid⟩ := hhead l hl
    rw [listContrib]
    simp [hid]
  have hsum1 : ∀ L : List (List PMatch),
      (∀ l ∈ L, listContrib k sid 0 l = some (1 / (k : ℚ))) →
      (L.filterMap (listContrib k sid 0)).sum = (L.length : ℚ) * (1 / (k : ℚ)) := by
    intro L
    induction L with
    | nil => intro _; simp
    | cons l rest ih =>
        intro h
        simp only [List.filterMap_cons, h l (List.mem_cons_self l rest),
          List.sum_cons, ih (fun l' hl' => h l' (List.mem_cons_of_mem l hl')),
          List.length_cons]
        push_cast
        ring
  have h1 : rrfSpecScore lists k sid = (lists.length : ℚ) / k := by
    rw [rrfSpecScore, hsum1 lists hcon, mul_one_div]
  have hcontrib_le : ∀ (i : String) (r : ℕ) (l : List PMatch) (v : ℚ),
      listContrib k i r l = some v → 0 ≤ v ∧ v ≤ 1 / ((k : ℚ) + r) := by
    intro i r l
    induction l generalizing r with
    | nil => intro v h; simp [listContrib] at h
    | cons m rest ih =>
        intro v h
        rw [listContrib] at h
        by_cases hm : m.id = i
        · simp only [hm, beq_self_eq_true, if_true, Option.some_inj] at h
          subst h
          have hpos : (0 : ℚ) < (k : ℚ) + r := by positivity
          exact ⟨by positivity, le_refl _⟩
        · simp only [hm, beq_iff_eq, if_neg hm] at h
          obtain ⟨h0, hle⟩ := ih (r + 1) v h
          refine ⟨h0, le_trans hle ?_⟩
          apply one_div_le_one_div_of_le
          · positivity
          · push_cast
            linarith
  have hsum_le : ∀ (L : List (List PMatch)) (f : List PMatch → Option ℚ) (B : ℚ),
      0 ≤ B → (∀ l ∈ L, ∀ v, f l = some v → 0 ≤ v ∧ v ≤ B) →
      (L.filterMap f).sum ≤ (L.length : ℚ) * B := by
    intro L f B hB
    induction L with
    | nil => intro _; simp
    | cons l rest ih =>
        intro h
        have hrest := ih (fun l' hl' => h l' (List.mem_cons_of_mem l hl'))
        cases hf : f l with
        | none =>
            simp only [List.filterMap_cons, hf, List.length_cons]
            push_cast
            nlinarith [hrest, hB]
        | some v =>
            obtain ⟨h0, hle⟩ := h l (List.mem_cons_self l rest) v hf
            simp only [List.filterMap_cons, hf, List.sum_cons, List.length_cons]
            push_cast
            nlinarith [hrest]
  have h2 : ∀ i, rrfSpecScore lists k i ≤ (lists.length : ℚ) / k := by
    intro i
    have hbound : ∀ l ∈ lists, ∀ v, listContrib k i 0 l = some v →
        0 ≤ v ∧ v ≤ 1 / (k : ℚ) := by
      intro l hl v hv
      have := hcontrib_le i 0 l v hv
      simpa using this
    have := hsum_le lists (listContrib k i 0) (1 / (k : ℚ)) (by positivity) hbound
    rw [rrfSpecScore]
    rw [mul_one_div] at this
    exact this
  have h3 : ∀ i, i ≠ sid → rrfSpecScore lists k i < rrfSpecScore lists k sid := by
    intro i hi
    have hboundi : ∀ l ∈ lists, ∀ v, listContrib k i 0 l = some v →
        0 ≤ v ∧ v ≤ 1 / ((k : ℚ) + 1) := by
      intro l hl v hv
      obtain ⟨m, rest, rfl, hid⟩ := hhead l hl
      rw [listContrib] at hv
      have hmi : ¬(m.id = i) := by rw [hid]; exact fun he => hi he.symm
      simp only [beq_iff_eq, if_neg hmi] at hv
      have := hcontrib_le i 1 rest v hv
      simpa using this
    have hle : rrfSpecScore lists k i ≤ (lists.length : ℚ) * (1 / ((k : ℚ) + 1)) :=
      hsum_le lists _ _ (by positivity) hboundi
    have hL : (0 : ℚ) < (lists.length : ℚ) := by
      exact_mod_cast List.length_pos.mpr hne
    have hstrict : (lists.length : ℚ) * (1 / ((k : ℚ) + 1))
        < (lists.length : ℚ) * (1 / (k : ℚ)) := by
      apply mul_lt_mul_of_pos_left _ hL
      apply one_div_lt_one_div_of_lt hkQ
      linarith
    rw [h1]
    have : rrfSpecScore lists k i < (lists.length : ℚ) * (1 / (k : ℚ)) :=
      lt_of_le_of_lt hle hstrict
    rw [mul_one_div] at this
    exact this
  refine ⟨h1, h2, h3, ?_⟩
  have hval := rrfScores_value lists k hnd
  have hperm : List.Perm (List.insertionSort scoreGe (rrfScores lists k))
      (rrfScores lists k) := List.perm_insertionSort _ _
  have hsorted : List.Sorted scoreGe (List.insertionSort scoreGe (rrfScores lists k)) :=
    List.sorted_insertionSort scoreGe _
  have hsid_keys : sid ∈ (rrfScores lists k).map Prod.fst := by
    obtain ⟨l₀, hl₀⟩ : ∃ l₀, l₀ ∈ lists := by
      cases lists with
      | nil => exact absurd rfl hne
      | cons a t => exact ⟨a, List.mem_cons_self a t⟩
    obtain ⟨m, rest, rfl, hid⟩ := hhead l₀ hl₀
    exact (mem_keys_rrfScores lists k sid).mpr
      ⟨_, hl₀, m, List.mem_cons_self m rest, hid⟩
  obtain ⟨ps, hps, hps1⟩ : ∃ p, p ∈ rrfScores lists k ∧ p.1 = sid := by
    obtain ⟨p, hp, he⟩ := List.mem_map.mp hsid_keys
    exact ⟨p, hp, he⟩
  have hps_sorted : ps ∈ List.insertionSort scoreGe (rrfScores lists k) :=
    hperm.mem_iff.mpr hps
  obtain ⟨p₀, stail, hcons⟩ :=
    List.exists_cons_of_ne_nil (List.ne_nil_of_mem hps_sorted)
  have hp₀mem : p₀ ∈ List.insertionSort scoreGe (rrfScores lists k) := by
    rw [hcons]; exact List.mem_cons_self p₀ stail
  have hp₀id : p₀.1 = sid := by
    by_contra hne0
    have hv0 : p₀.2 = rrfSpecScore lists k p₀.1 := hval p₀ (hperm.mem_iff.mp hp₀mem)
    have hvps : ps.2 = rrfSpecScore lists k sid := by
      have := hval ps hps
      rw [hps1] at this
      exact this
    have hlt : rrfSpecScore lists k p₀.1 < rrfSpecScore lists k sid := h3 p₀.1 hne0
    rcases List.mem_cons.mp (hcons ▸ hps_sorted) with rfl | htail
    · exact hne0 hps1
    · have hge : scoreGe p₀ ps :=
        List.rel_of_sorted_cons (hcons ▸ hsorted) ps htail
      have : ps.2 ≤ p₀.2 := hge
      rw [hvps, hv0] at this
      linarith
  obtain ⟨j, rfl⟩ : ∃ j, k = j + 1 := ⟨k - 1, by omega⟩
  have hids := fused_ids lists (j + 1)
  have hh : ((reciprocal_rank_fusion lists (j + 1)).map PMatch.id).head? = some sid := by
    rw [hids, hcons]
    simp [List.take_succ_cons, hp₀id]
  rw [List.head?_map] at hh
  exact hh

theorem rrf_unanimous_first_rank_witness :
    ((0 : ℕ) < 3 ∧
      ([[(⟨"s", "ts"⟩ : PMatch), ⟨"a", "ta"⟩], [⟨"s", "ts"⟩, ⟨"b", "tb"⟩]] ≠
        ([] : List (List PMatch))) ∧
      (∀ l ∈ [[(⟨"s", "ts"⟩ : PMatch), ⟨"a", "ta"⟩], [⟨"s", "ts"⟩, ⟨"b", "tb"⟩]],
        (l.map PMatch.id).Nodup) ∧
      (∀ l ∈ [[(⟨"s", "ts"⟩ : PMatch), ⟨"a", "ta"⟩], [⟨"s", "ts"⟩, ⟨"b", "tb"⟩]],
        l.head?.map PMatch.id = some "s")) ∧
    (rrfSpecScore [[(⟨"s", "ts"⟩ : PMatch), ⟨"a", "ta"⟩], [⟨"s", "ts"⟩, ⟨"b", "tb"⟩]] 3 "s"
        = (([[(⟨"s", "ts"⟩ : PMatch), ⟨"a", "ta"⟩],
            [⟨"s", "ts"⟩, ⟨"b", "tb"⟩]].length : ℚ)) / 3 ∧
      (∀ i, rrfSpecScore [[(⟨"s", "ts"⟩ : PMatch), ⟨"a", "ta"⟩],
            [⟨"s", "ts"⟩, ⟨"b", "tb"⟩]] 3 i
          ≤ (([[(⟨"s", "ts"⟩ : PMatch), ⟨"a", "ta"⟩],
              [⟨"s", "ts"⟩, ⟨"b", "tb"⟩]].length : ℚ)) / 3) ∧
      (∀ i, i ≠ "s" →
        rrfSpecScore [[(⟨"s", "ts"⟩ : PMatch), ⟨"a", "ta"⟩],
            [⟨"s", "ts"⟩, ⟨"b", "tb"⟩]] 3 i
          < rrfSpecScore [[(⟨"s", "ts"⟩ : PMatch), ⟨"a", "ta"⟩],
              [⟨"s", "ts"⟩, ⟨"b", "tb"⟩]] 3 "s") ∧
      (reciprocal_rank_fusion [[(⟨"s", "ts"⟩ : PMatch), ⟨"a", "ta"⟩],
          [⟨"s", "ts"⟩, ⟨"b", "tb"⟩]] 3).head?.map PMatch.id = some "s") :=
  ⟨⟨by decide, by decide, by decide, by decide⟩,
   rrf_unanimous_first_rank _ 3 "s" (by decide) (by decide) (by decide) (by decide)⟩

theorem retrieval_query_usage_witness :
    ∃ m, m ∈ [(⟨"m1", (9 : ℚ)/10, [("extracted_info", "likes tea")]⟩ : ScoredMatch)] ∧
      (7 : ℚ)/10 < m.score ∧ alookup "extracted_info" m.metadata = some "likes tea" :=
  (retrieval_query_usage "u1" "did I mention my sister"
      [⟨"m1", (9 : ℚ)/10, [("extracted_info", "likes tea")]⟩]).2.2.2.1
    "likes tea" (by
      have h7 : ((7 : ℚ)/10 < (9 : ℚ)/10) := by norm_num
      simp [semantic_parts, alookup, h7])

end IM
